import Mathlib

/-!
# The circular buffer of `level2/exercises/exs30.c`

A shallow embedding of the ring buffer of `exs30.c` and the properties of its
operations.

Modelling conventions.

* `size_t` is 64 bits wide.  Its values are modelled by natural numbers up to
  `SIZE_MAX`; the sums that can pass `SIZE_MAX` (`pos += c->start`,
  `++c->start`, the byte count `sizeof(double[n])`) are reduced modulo
  `SIZE_MAX + 1` as in C.  Every subtraction the code performs is taken in a
  branch where it cannot go below zero, and `++c->len` is taken below `max_len`.
  The sums `ostart + len` of `circular_resize` are below `2 * max_len` when
  `len ≤ max_len`; they are not reduced, since they stay below `SIZE_MAX` on
  every buffer whose block exists (`max_len ≤ SIZE_MAX / 8`).
* The element type `double` is a type parameter `α`: the code only stores,
  copies and returns elements, the sole constant being the `0.0` that
  `circular_pop` returns by default.
* A pointer to a `circular` that may be null is an `Option (circular α)`.
  Functions that write through the pointer return the object after the call.
* The array `tab` is an `Option (List α)`: `none` is the null pointer, and the
  list holds the slots of the allocation.  A pointer into `tab` is the index of
  its slot.  The flag `dangling` records that the block `tab` points to has
  been released; `free` on such a block is undefined.
* The allocator is not deterministic.  Each function that allocates takes the
  outcome of its one allocation as an argument of type `Option (Nat → α)`:
  `none` when the allocator returns null, `some junk` when it succeeds, slot
  `j` of the block holding `junk j` wherever the C standard leaves the content
  indeterminate.
* A block requested with `sizeof(double[n])` bytes has
  `sizeof(double[n]) / 8` slots, which is `n` only for `n ≤ SIZE_MAX / 8`.
* `realloc` with a request of 0 bytes that returns null has released the block
  it was given (as glibc does); with a request of more bytes a null result
  leaves the block as it was.
* `circular_getpos` divides by `max_len`.  With `max_len == 0` that is
  undefined in C: the model returns `none` there, and `circular_resize`
  propagates it.
* An access through `tab` to a slot outside the block, or to a block that has
  been released, is undefined in C.  The model keeps such accesses total (a
  write outside the block is dropped, a read outside it gives no value, and
  `circular_pop` then returns 0); the statements about values are made for
  buffers with `storage_ok`, where no such access occurs.
-/

namespace Exs30

/-! ## Data model -/

/-- The hidden implementation of the circular buffer type. -/
structure circular (α : Type) where
  /-- Position of element 0 -/
  start : Nat
  /-- Number of elements stored -/
  len : Nat
  /-- Maximum capacity -/
  max_len : Nat
  /-- Array holding the data -/
  tab : Option (List α)
  /-- The block `tab` points to has been released -/
  dangling : Bool := false
deriving DecidableEq, Repr

/-- What a function returning `circular*` leaves behind: whether the returned
pointer is non-null, and the object its argument points to after the call
(`none` when the argument was a null pointer). -/
structure Ret (α : Type) where
  /-- `true` when the returned pointer is not null -/
  ptr : Bool
  /-- the object behind the argument after the call -/
  obj : Option (circular α)
deriving DecidableEq, Repr

/-! ## `size_t` -/

/-- Largest value of `size_t`. -/
def SIZE_MAX : Nat := 18446744073709551615

/-- The sum of two `size_t` values, reduced modulo `SIZE_MAX + 1` as unsigned
arithmetic is in C.  A number above `SIZE_MAX` is not a `size_t` value and no
C object holds one; a sum with such an operand is left as it is. -/
def size_add (a b : Nat) : Nat :=
  if a ≤ SIZE_MAX ∧ b ≤ SIZE_MAX then (a + b) % (SIZE_MAX + 1) else a + b

/-- `sizeof(double[n])` in bytes, a `double` taking 8 bytes: the product is
reduced modulo `SIZE_MAX + 1`. -/
def sizeof_doubles (n : Nat) : Nat :=
  8 * n % (SIZE_MAX + 1)

/-- Number of `double` slots in a block of `sizeof(double[n])` bytes. -/
def slots (n : Nat) : Nat :=
  sizeof_doubles n / 8

/-! ## The C library -/

/-- `malloc(sizeof(double[n]))`: null, or a block of `sizeof(double[n])` bytes
of indeterminate content. -/
def malloc {α : Type} (heap : Option (Nat → α)) (n : Nat) : Option (List α) :=
  heap.map fun junk => (List.range (slots n)).map junk

/-- The block a successful `realloc(p, sizeof(double[n]))` returns:
`sizeof(double[n])` bytes that agree with `p` on the slots both have, the
others indeterminate. -/
def resized {α : Type} (junk : Nat → α) (p : Option (List α)) (n : Nat) : List α :=
  (List.range (slots n)).map fun j =>
    match p with
    | some t => (t[j]?).getD (junk j)
    | none => junk j

/-- `realloc(p, sizeof(double[n]))`: null, or the resized block.  What a null
result leaves of `p` is `released_by_null`. -/
def realloc {α : Type} (heap : Option (Nat → α)) (p : Option (List α)) (n : Nat) :
    Option (List α) :=
  heap.map fun junk => resized junk p n

/-- Whether the block `p`, released already or not as `was` says, is released
once `realloc(p, sizeof(double[n]))` has returned null: a request of 0 bytes
releases a block before null is returned, a request of more bytes leaves it. -/
def released_by_null {α : Type} (p : Option (List α)) (was : Bool) (n : Nat) : Bool :=
  was || (p.isSome && sizeof_doubles n == 0)

/-- `memmove(t + dst, t + src, n * sizeof(double))`: slot `dst + k` receives
what slot `src + k` held before the call, for every `k < n`. -/
def memmove {α : Type} (t : List α) (dst src n : Nat) : List α :=
  t.mapIdx fun j x => if dst ≤ j ∧ j < dst + n then (t[src + (j - dst)]?).getD x else x

/-- `memcpy(t + dst, t + src, n * sizeof(double))`.  C defines it only for
ranges that do not overlap, where it does what `memmove` does. -/
def memcpy {α : Type} (t : List α) (dst src n : Nat) : List α :=
  t.mapIdx fun j x => if dst ≤ j ∧ j < dst + n then (t[src + (j - dst)]?).getD x else x

/-! ## The operations of `exs30.c` -/

/-- `circular_init`: the argument object is overwritten, so only whether the
pointer is null matters. -/
def circular_init {α : Type} (heap : Option (Nat → α)) (c : Option (circular α))
    (max_len : Nat) : Option (circular α) :=
  match c with
  | some _ =>
    if max_len ≠ 0 then
      let c1 : circular α :=
        { start := 0, len := 0, max_len := max_len, tab := malloc heap max_len }
      -- Allocation failed.
      if c1.tab.isNone then some { c1 with max_len := 0 } else some c1
    else
      some { start := 0, len := 0, max_len := 0, tab := none }
  | none => none

/-- `circular_destroy`: `free(c->tab)` followed by `circular_init(c, 0)`.  The
outer `none` is undefined behaviour: `free` of a block that has been released
already.  `free` of the null pointer does nothing. -/
def circular_destroy {α : Type} (c : Option (circular α)) :
    Option (Option (circular α)) :=
  match c with
  | some b => if b.dangling then none else some (circular_init none (some b) 0)
  | none => some none

/-- `circular_getlength`. -/
def circular_getlength {α : Type} (c : Option (circular α)) : Nat :=
  match c with
  | some b => b.len
  | none => 0

/-- `circular_getpos`: `pos += c->start` in `size_t`, then `pos %= c->max_len`,
undefined (`none`) when `max_len` is zero. -/
def circular_getpos {α : Type} (c : circular α) (pos : Nat) : Option Nat :=
  if c.max_len = 0 then none else some (size_add pos c.start % c.max_len)

/-- `circular_element`: the slot of `tab` the returned pointer refers to, `none`
for the null pointer. -/
def circular_element {α : Type} (c : Option (circular α)) (pos : Nat) : Option Nat :=
  match c with
  | some b => if pos < b.max_len then circular_getpos b pos else none
  | none => none

/-- The value held by slot `i` of `tab` (`none` outside the storage). -/
def slot {α : Type} (c : circular α) (i : Nat) : Option α :=
  c.tab.bind fun t => t[i]?

/-- The value `*circular_element(c, pos)` holds, when the pointer is not null
and refers to a slot of the storage. -/
def value_at {α : Type} (c : Option (circular α)) (pos : Nat) : Option α :=
  match c with
  | some b => (circular_element (some b) pos).bind (slot b)
  | none => none

/-- `circular_append`. -/
def circular_append {α : Type} (c : Option (circular α)) (value : α) : Ret α :=
  match c with
  | some b =>
    match circular_element (some b) b.len with
    | some new_element =>
      { ptr := true,
        obj := some { b with tab := b.tab.map fun t => t.set new_element value,
                             len := b.len + 1 } }
    | none => { ptr := true, obj := some b }
  | none => { ptr := false, obj := none }

/-- `circular_pop`: the returned value and the object after the call. -/
def circular_pop {α : Type} [Zero α] (c : Option (circular α)) : α × Option (circular α) :=
  match c with
  | some b =>
    if b.len ≠ 0 then
      let ret : α :=
        match circular_element (some b) 0 with
        | some p => (slot b p).getD 0
        | none => 0
      (ret, some { b with start := size_add b.start 1, len := b.len - 1 })
    else (0, some b)
  | none => (0, none)

/-- `circular_resize`.  The outer `none` is undefined behaviour (the modulo of
`circular_getpos` with `max_len == 0`). -/
def circular_resize {α : Type} (heap : Option (Nat → α)) (c : Option (circular α))
    (nlen : Nat) : Option (Ret α) :=
  match c with
  | some b =>
    let len := b.len
    if len > nlen then some { ptr := false, obj := some b } else
    let olen := b.max_len
    if nlen ≠ olen then
      match circular_getpos b 0 with
      | none => none
      | some ostart =>
        let otab := b.tab
        if nlen > olen then
          match realloc heap b.tab nlen with
          | none =>
            some { ptr := false,
                   obj := some { b with dangling := released_by_null b.tab b.dangling nlen } }
          | some ntab =>
            -- Two separate chunks
            if ostart + len > olen then
              let ulen := olen - ostart
              let llen := len - ulen
              if llen ≤ nlen - olen then
                -- Copy the lower one up after the old end.
                some { ptr := true,
                       obj := some { max_len := nlen, start := ostart, len := len,
                                     tab := some (memcpy ntab olen 0 llen) } }
              else
                -- Move the upper one up to the new end.
                let nstart := nlen - ulen
                some { ptr := true,
                       obj := some { max_len := nlen, start := nstart, len := len,
                                     tab := some (memmove ntab nstart ostart ulen) } }
            else
              some { ptr := true,
                     obj := some { max_len := nlen, start := ostart, len := len,
                                   tab := some ntab } }
        else
          let moved : Nat × Option (List α) :=
            if ostart + len > olen then
              -- Two separate chunks; mv the upper one down to the new end.
              let ulen := olen - ostart
              let nstart := nlen - ulen
              (nstart, otab.map fun t => memmove t nstart ostart ulen)
            else
              -- A single chunk
              if ostart + len > nlen then
                -- Reallocation cuts the existing chunk in two.
                (0, otab.map fun t => memmove t 0 ostart len)
              else (ostart, otab)
          -- Now all data is saved in the conserved part of the array.
          match realloc heap moved.2 nlen with
          | some ntab =>
            some { ptr := true,
                   obj := some { max_len := nlen, start := moved.1, len := len,
                                 tab := some ntab } }
          -- If realloc fails in this case (would be weird), just overrule it.
          | none =>
            some { ptr := true,
                   obj := some { max_len := nlen, start := moved.1, len := len,
                                 tab := moved.2,
                                 dangling := released_by_null moved.2 b.dangling nlen } }
    else some { ptr := true, obj := some b }
  | none => some { ptr := false, obj := none }

/-! ## Derived notions used by the statements -/

/-- Number of slots of the allocation behind `tab`. -/
def storage_size {α : Type} (c : circular α) : Nat :=
  match c.tab with
  | some t => t.length
  | none => 0

/-- The allocation behind `tab` is a live block of at most `SIZE_MAX` bytes
with a slot for each of the `max_len` positions. -/
def storage_ok {α : Type} (c : circular α) : Prop :=
  c.dangling = false ∧ c.max_len ≤ storage_size c ∧ 8 * storage_size c ≤ SIZE_MAX

instance {α : Type} (c : circular α) : Decidable (storage_ok c) := by
  unfold storage_ok; infer_instance

/-- The live elements in logical order: `*circular_element(c, i)` for
`i < len`. -/
def contents {α : Type} (c : circular α) : List (Option α) :=
  (List.range c.len).map fun i => value_at (some c) i

/-- What the shrinking branch stores in `tab`: the resized block, or the block
as it is when `realloc` returns null. -/
def shrunk {α : Type} (heap : Option (Nat → α)) (p : Option (List α)) (n : Nat) :
    Option (List α) :=
  match realloc heap p n with
  | some t => some t
  | none => p

/-- Whether `tab` dangles after the shrinking branch: not after a successful
`realloc`, and as `released_by_null` says after a null result. -/
def shrunk_dangling {α : Type} (heap : Option (Nat → α)) (p : Option (List α)) (was : Bool)
    (n : Nat) : Bool :=
  match realloc heap p n with
  | some _ => false
  | none => released_by_null p was n

/-- Capacity of a buffer that may be absent. -/
def capacity {α : Type} (c : Option (circular α)) : Nat :=
  match c with
  | some b => b.max_len
  | none => 0

/-- One call of a queue session: `circular_append(c, value)` or
`circular_pop(c)`. -/
inductive Op (α : Type) where
  | append (value : α)
  | pop
deriving DecidableEq, Repr

/-- The values passed to `circular_append`, in call order. -/
def appended {α : Type} : List (Op α) → List α
  | [] => []
  | .append v :: ops => v :: appended ops
  | .pop :: ops => appended ops

/-- The values `circular_pop` returns, in call order, when the calls `ops` are
made one after the other on `c`. -/
def popped {α : Type} [Zero α] (c : Option (circular α)) : List (Op α) → List α
  | [] => []
  | .append v :: ops => popped (circular_append c v).obj ops
  | .pop :: ops => (circular_pop c).1 :: popped (circular_pop c).2 ops

/-- The session issues `circular_append` only while `len < max_len` and
`circular_pop` only while `len > 0`. -/
def admissible {α : Type} [Zero α] (c : Option (circular α)) : List (Op α) → Bool
  | [] => true
  | .append v :: ops =>
    decide (circular_getlength c < capacity c) && admissible (circular_append c v).obj ops
  | .pop :: ops =>
    decide (0 < circular_getlength c) && admissible (circular_pop c).2 ops

/-- One call made on an initialised buffer. -/
inductive Call (α : Type) where
  | append (value : α)
  | pop
  | resize (heap : Option (Nat → α)) (nlen : Nat)
  | destroy

/-- The object behind `c` after one call; the outer `none` is undefined
behaviour. -/
def call {α : Type} [Zero α] (c : Option (circular α)) :
    Call α → Option (Option (circular α))
  | .append v => some (circular_append c v).obj
  | .pop => some (circular_pop c).2
  | .resize heap nlen => (circular_resize heap c nlen).map fun r => r.obj
  | .destroy => circular_destroy c

/-- The object behind `c` after a sequence of calls, each made on the result of
the one before. -/
def run {α : Type} [Zero α] (c : Option (circular α)) :
    List (Call α) → Option (Option (circular α))
  | [] => some c
  | k :: ks => (call c k).bind fun c' => run c' ks

/-- A call of `memcpy` or `memmove` on `tab`: `n` elements from slot `src` on
are copied to slot `dst` on. -/
structure Copy where
  /-- `true` for `memmove`, `false` for `memcpy` -/
  overlap_safe : Bool
  /-- first slot written -/
  dst : Nat
  /-- first slot read -/
  src : Nat
  /-- number of elements copied -/
  n : Nat
deriving DecidableEq, Repr

/-- The `memcpy` or `memmove` call that `circular_resize(c, nlen)` makes, if it
makes one (in the growing branch: once `realloc` has succeeded). -/
def circular_resize_copy {α : Type} (c : circular α) (nlen : Nat) : Option Copy :=
  let len := c.len
  if len > nlen then none else
  let olen := c.max_len
  if nlen ≠ olen then
    match circular_getpos c 0 with
    | none => none
    | some ostart =>
      if nlen > olen then
        -- Two separate chunks
        if ostart + len > olen then
          let ulen := olen - ostart
          let llen := len - ulen
          if llen ≤ nlen - olen then
            -- Copy the lower one up after the old end.
            some { overlap_safe := false, dst := olen, src := 0, n := llen }
          else
            -- Move the upper one up to the new end.
            some { overlap_safe := true, dst := nlen - ulen, src := ostart, n := ulen }
        else none
      else
        if ostart + len > olen then
          -- Two separate chunks; mv the upper one down to the new end.
          let ulen := olen - ostart
          some { overlap_safe := true, dst := nlen - ulen, src := ostart, n := ulen }
        else
          -- A single chunk
          if ostart + len > nlen then
            -- Reallocation cuts the existing chunk in two.
            some { overlap_safe := true, dst := 0, src := ostart, n := len }
          else none
  else none

/-- The array after the copy call `k`, if there is one. -/
def apply_copy {α : Type} (k : Option Copy) (t : List α) : List α :=
  match k with
  | some k =>
    if k.overlap_safe then memmove t k.dst k.src k.n else memcpy t k.dst k.src k.n
  | none => t

/-- The session of `k` times `circular_append(c, 0)`, `circular_pop(c)`,
followed by the calls `rest`. -/
def append_pop_pairs : Nat → List (Op Nat) → List (Op Nat)
  | 0, rest => rest
  | k + 1, rest => Op.append 0 :: Op.pop :: append_pop_pairs k rest

/-! ## Lemmas on the C library model -/

theorem size_add_eq {a b : Nat} (h : a + b ≤ SIZE_MAX) : size_add a b = a + b := by
  unfold size_add
  split
  · exact Nat.mod_eq_of_lt (by omega)
  · rfl

theorem size_add_zero_left (b : Nat) : size_add 0 b = b := by
  unfold size_add
  split
  · rename_i h
    rw [Nat.zero_add]
    exact Nat.mod_eq_of_lt (by omega)
  · exact Nat.zero_add b

theorem slots_eq {n : Nat} (h : n ≤ SIZE_MAX / 8) : slots n = n := by
  unfold slots sizeof_doubles
  unfold SIZE_MAX at *
  omega

theorem sizeof_doubles_pos {n : Nat} (h : n ≤ SIZE_MAX / 8) (hn : 0 < n) :
    sizeof_doubles n ≠ 0 := by
  unfold sizeof_doubles
  unfold SIZE_MAX at *
  omega

theorem resized_length {α : Type} (junk : Nat → α) (p : Option (List α)) (n : Nat)
    (hn : n ≤ SIZE_MAX / 8) : (resized junk p n).length = n := by
  simp [resized, slots_eq hn]

theorem resized_get {α : Type} (junk : Nat → α) (t : List α) (n j : Nat)
    (hn : n ≤ SIZE_MAX / 8) (hj : j < n) (hjt : j < t.length) :
    (resized junk (some t) n)[j]? = t[j]? := by
  simp [resized, slots_eq hn, List.getElem?_map, List.getElem?_range hj,
    List.getElem?_eq_getElem hjt]

theorem memmove_length {α : Type} (t : List α) (dst src n : Nat) :
    (memmove t dst src n).length = t.length := by
  simp [memmove]

theorem memcpy_eq_memmove {α : Type} (t : List α) (dst src n : Nat) :
    memcpy t dst src n = memmove t dst src n := rfl

theorem memmove_get_moved {α : Type} (t : List α) (dst src n j : Nat)
    (h1 : dst ≤ j) (h2 : j < dst + n) (hj : j < t.length) (hs : src + (j - dst) < t.length) :
    (memmove t dst src n)[j]? = t[src + (j - dst)]? := by
  simp [memmove, List.getElem?_mapIdx, List.getElem?_eq_getElem hj,
    List.getElem?_eq_getElem hs, h1, h2]

theorem memmove_get_kept {α : Type} (t : List α) (dst src n j : Nat)
    (h : ¬ (dst ≤ j ∧ j < dst + n)) :
    (memmove t dst src n)[j]? = t[j]? := by
  rcases Nat.lt_or_ge j t.length with hj | hj
  · simp only [memmove, List.getElem?_mapIdx, List.getElem?_eq_getElem hj, Option.map_some',
      if_neg h]
  · simp [memmove, List.getElem?_mapIdx, List.getElem?_eq_none hj]

/-! ## Lemmas on positions -/

theorem mod_add_lt {s i m : Nat} (h : s % m + i < m) : (i + s) % m = s % m + i := by
  rw [Nat.add_mod, Nat.mod_eq_of_lt (by omega : i < m), Nat.add_comm, Nat.mod_eq_of_lt h]

theorem mod_add_ge {s i m : Nat} (hi : i < m) (h : m ≤ s % m + i) :
    (i + s) % m = s % m + i - m := by
  have hm : 0 < m := by omega
  have hs : s % m < m := Nat.mod_lt _ hm
  rw [Nat.add_mod, Nat.mod_eq_of_lt hi, Nat.add_comm, Nat.mod_eq_sub_mod h,
    Nat.mod_eq_of_lt (by omega)]

theorem circular_getpos_eq {α : Type} (c : circular α) (pos : Nat) (h : 0 < c.max_len)
    (hw : pos + c.start ≤ SIZE_MAX) :
    circular_getpos c pos = some ((pos + c.start) % c.max_len) := by
  simp [circular_getpos, Nat.ne_of_gt h, size_add_eq hw]

theorem circular_getpos_zero {α : Type} (c : circular α) (h : 0 < c.max_len) :
    circular_getpos c 0 = some (c.start % c.max_len) := by
  simp [circular_getpos, Nat.ne_of_gt h, size_add_zero_left]

theorem value_at_eq {α : Type} (c : circular α) (pos : Nat) (h : pos < c.max_len)
    (hw : pos + c.start ≤ SIZE_MAX) :
    value_at (some c) pos = slot c ((pos + c.start) % c.max_len) := by
  simp [value_at, circular_element, h, circular_getpos_eq c pos (by omega) hw]

/-! ## The branches of `circular_resize` -/

theorem resize_reject {α : Type} (heap : Option (Nat → α)) (c : circular α) (n : Nat)
    (h : n < c.len) :
    circular_resize heap (some c) n = some { ptr := false, obj := some c } := by
  simp [circular_resize, h]

theorem resize_same {α : Type} (heap : Option (Nat → α)) (c : circular α)
    (h : c.len ≤ c.max_len) :
    circular_resize heap (some c) c.max_len = some { ptr := true, obj := some c } := by
  simp [circular_resize, Nat.not_lt.mpr h]

theorem resize_grow_fail {α : Type} (c : circular α) (n : Nat)
    (hcap : 0 < c.max_len) (hn : c.max_len < n) (hlen : c.len ≤ n) :
    circular_resize none (some c) n =
      some { ptr := false,
             obj := some { c with dangling := released_by_null c.tab c.dangling n } } := by
  simp [circular_resize, Nat.not_lt.mpr hlen, Nat.ne_of_gt hn, circular_getpos_zero c hcap, hn,
    realloc]

theorem resize_grow_single {α : Type} (junk : Nat → α) (c : circular α) (n : Nat)
    (hcap : 0 < c.max_len) (hn : c.max_len < n) (hlen : c.len ≤ n)
    (hone : c.start % c.max_len + c.len ≤ c.max_len) :
    circular_resize (some junk) (some c) n =
      some { ptr := true,
             obj := some { max_len := n, start := c.start % c.max_len, len := c.len,
                           tab := some (resized junk c.tab n) } } := by
  simp [circular_resize, Nat.not_lt.mpr hlen, Nat.ne_of_gt hn, circular_getpos_zero c hcap, hn,
    realloc, Nat.not_lt.mpr hone]

theorem resize_grow_lower {α : Type} (junk : Nat → α) (c : circular α) (n : Nat)
    (hcap : 0 < c.max_len) (hn : c.max_len < n) (hlen : c.len ≤ n)
    (htwo : c.max_len < c.start % c.max_len + c.len)
    (hfit : c.len - (c.max_len - c.start % c.max_len) ≤ n - c.max_len) :
    circular_resize (some junk) (some c) n =
      some { ptr := true,
             obj := some { max_len := n, start := c.start % c.max_len, len := c.len,
                           tab := some (memcpy (resized junk c.tab n) c.max_len 0
                             (c.len - (c.max_len - c.start % c.max_len))) } } := by
  simp [circular_resize, Nat.not_lt.mpr hlen, Nat.ne_of_gt hn, circular_getpos_zero c hcap, hn,
    realloc, htwo, hfit]

theorem resize_grow_upper {α : Type} (junk : Nat → α) (c : circular α) (n : Nat)
    (hcap : 0 < c.max_len) (hn : c.max_len < n) (hlen : c.len ≤ n)
    (htwo : c.max_len < c.start % c.max_len + c.len)
    (hfit : n - c.max_len < c.len - (c.max_len - c.start % c.max_len)) :
    circular_resize (some junk) (some c) n =
      some { ptr := true,
             obj := some { max_len := n, start := n - (c.max_len - c.start % c.max_len),
                           len := c.len,
                           tab := some (memmove (resized junk c.tab n)
                             (n - (c.max_len - c.start % c.max_len)) (c.start % c.max_len)
                             (c.max_len - c.start % c.max_len)) } } := by
  simp [circular_resize, Nat.not_lt.mpr hlen, Nat.ne_of_gt hn, circular_getpos_zero c hcap, hn,
    realloc, htwo, Nat.not_le.mpr hfit]

theorem resize_shrink_upper {α : Type} (heap : Option (Nat → α)) (c : circular α) (n : Nat)
    (hn : n < c.max_len) (hlen : c.len ≤ n)
    (htwo : c.max_len < c.start % c.max_len + c.len) :
    circular_resize heap (some c) n =
      some { ptr := true,
             obj := some { max_len := n, start := n - (c.max_len - c.start % c.max_len),
                           len := c.len,
                           tab := shrunk heap (c.tab.map fun t => memmove t
                             (n - (c.max_len - c.start % c.max_len)) (c.start % c.max_len)
                             (c.max_len - c.start % c.max_len)) n,
                           dangling := shrunk_dangling heap (c.tab.map fun t => memmove t
                             (n - (c.max_len - c.start % c.max_len)) (c.start % c.max_len)
                             (c.max_len - c.start % c.max_len)) c.dangling n } } := by
  have hcap : 0 < c.max_len := by omega
  cases heap <;>
  simp [circular_resize, Nat.not_lt.mpr hlen, Nat.ne_of_lt hn, circular_getpos_zero c hcap,
    Nat.not_lt.mpr (Nat.le_of_lt hn), htwo, shrunk, shrunk_dangling, realloc]

theorem resize_shrink_front {α : Type} (heap : Option (Nat → α)) (c : circular α) (n : Nat)
    (hn : n < c.max_len) (hlen : c.len ≤ n)
    (hone : c.start % c.max_len + c.len ≤ c.max_len)
    (hcut : n < c.start % c.max_len + c.len) :
    circular_resize heap (some c) n =
      some { ptr := true,
             obj := some { max_len := n, start := 0, len := c.len,
                           tab := shrunk heap (c.tab.map fun t => memmove t 0
                             (c.start % c.max_len) c.len) n,
                           dangling := shrunk_dangling heap (c.tab.map fun t => memmove t 0
                             (c.start % c.max_len) c.len) c.dangling n } } := by
  have hcap : 0 < c.max_len := by omega
  cases heap <;>
  simp [circular_resize, Nat.not_lt.mpr hlen, Nat.ne_of_lt hn, circular_getpos_zero c hcap,
    Nat.not_lt.mpr (Nat.le_of_lt hn), Nat.not_lt.mpr hone, hcut, shrunk, shrunk_dangling,
    realloc]

theorem resize_shrink_keep {α : Type} (heap : Option (Nat → α)) (c : circular α) (n : Nat)
    (hn : n < c.max_len) (hlen : c.len ≤ n)
    (hin : c.start % c.max_len + c.len ≤ n) :
    circular_resize heap (some c) n =
      some { ptr := true,
             obj := some { max_len := n, start := c.start % c.max_len, len := c.len,
                           tab := shrunk heap c.tab n,
                           dangling := shrunk_dangling heap c.tab c.dangling n } } := by
  have hcap : 0 < c.max_len := by omega
  have hone : c.start % c.max_len + c.len ≤ c.max_len := by omega
  cases heap <;>
  simp [circular_resize, Nat.not_lt.mpr hlen, Nat.ne_of_lt hn, circular_getpos_zero c hcap,
    Nat.not_lt.mpr (Nat.le_of_lt hn), Nat.not_lt.mpr hone, Nat.not_lt.mpr hin, shrunk,
    shrunk_dangling, realloc]

/-! ## Values before and after a resize -/

theorem shrunk_get {α : Type} (heap : Option (Nat → α)) (t : List α) (n j : Nat)
    (hn : n ≤ SIZE_MAX / 8) (hj : j < n) (hjt : j < t.length) :
    (shrunk heap (some t) n).bind (fun u => u[j]?) = t[j]? := by
  cases heap with
  | none => simp [shrunk, realloc]
  | some junk => simp [shrunk, realloc, resized_get junk t n j hn hj hjt]

theorem storage_ok_tab {α : Type} (c : circular α) (hcap : 0 < c.max_len) (hst : storage_ok c) :
    ∃ t, c.tab = some t ∧ c.max_len ≤ t.length ∧ 8 * t.length ≤ SIZE_MAX := by
  unfold storage_ok storage_size at hst
  cases htab : c.tab with
  | none => rw [htab] at hst; simp at hst; omega
  | some t => rw [htab] at hst; exact ⟨t, rfl, hst.2.1, hst.2.2⟩

theorem storage_ok_bound {α : Type} (c : circular α) (hst : storage_ok c) :
    c.max_len ≤ SIZE_MAX / 8 := by
  unfold storage_ok at hst
  omega

theorem value_at_slot {α : Type} (c : circular α) (pos : Nat) (h : pos < c.max_len) :
    value_at (some c) pos = slot c (size_add pos c.start % c.max_len) := by
  simp [value_at, circular_element, h, circular_getpos, Nat.ne_of_gt (by omega : 0 < c.max_len)]

theorem old_value_upper {α : Type} (c : circular α) (t : List α) (ht : c.tab = some t)
    (i : Nat) (hi : i < c.max_len) (hw : i + c.start ≤ SIZE_MAX)
    (h : c.start % c.max_len + i < c.max_len) :
    value_at (some c) i = t[c.start % c.max_len + i]? := by
  rw [value_at_eq c i hi hw, mod_add_lt h]; simp [slot, ht]

theorem old_value_lower {α : Type} (c : circular α) (t : List α) (ht : c.tab = some t)
    (i : Nat) (hi : i < c.max_len) (hw : i + c.start ≤ SIZE_MAX)
    (h : c.max_len ≤ c.start % c.max_len + i) :
    value_at (some c) i = t[c.start % c.max_len + i - c.max_len]? := by
  rw [value_at_eq c i hi hw, mod_add_ge hi h]; simp [slot, ht]

theorem new_value_direct {α : Type} (s l n i : Nat) (u : Option (List α)) (d : Bool)
    (hn : n ≤ SIZE_MAX / 8) (h : s + i < n) :
    value_at (some { start := s, len := l, max_len := n, tab := u, dangling := d }) i
      = u.bind fun v => v[s + i]? := by
  rw [value_at_eq _ i (by simp; omega) (by simp; omega)]
  simp only [slot]
  rw [Nat.mod_eq_of_lt (by omega), Nat.add_comm]

theorem new_value_wrapped {α : Type} (s l n i : Nat) (u : Option (List α)) (d : Bool)
    (hn : n ≤ SIZE_MAX / 8) (hi : i < n) (hs : s ≤ n) (h : n ≤ s + i) :
    value_at (some { start := s, len := l, max_len := n, tab := u, dangling := d }) i
      = u.bind fun v => v[s + i - n]? := by
  rw [value_at_eq _ i (by simpa using hi) (by simp; omega)]
  simp only [slot]
  rw [Nat.add_comm i s, Nat.mod_eq_sub_mod h, Nat.mod_eq_of_lt (by omega)]

theorem value_at_isSome {α : Type} (c : circular α) (hst : storage_ok c)
    (i : Nat) (hi : i < c.max_len) : (value_at (some c) i).isSome := by
  obtain ⟨t, ht, hsz, _⟩ := storage_ok_tab c (by omega) hst
  have hlt : size_add i c.start % c.max_len < c.max_len := Nat.mod_lt _ (by omega)
  rw [value_at_slot c i hi]
  simp [slot, ht, List.getElem?_eq_getElem (by omega : size_add i c.start % c.max_len < t.length)]

/-- C1 as the code has it.  For a buffer with `max_len > 0`, `len ≤ max_len`, a
live block with `max_len` slots and a `start` with `start + len ≤ SIZE_MAX + 1`
(the positions of the live elements do not pass `SIZE_MAX`), and for `n ≥ len`
with `n ≤ SIZE_MAX / 8` (the block requested has `n` slots) and the
reallocation successful when the buffer grows, `circular_resize` returns the
buffer and every logical element `i < len` holds afterwards the value it held
before. -/
theorem circular_resize_preserves_elements {α : Type} (heap : Option (Nat → α))
    (c : circular α) (n : Nat)
    (hcap : 0 < c.max_len) (hlen : c.len ≤ c.max_len) (hst : storage_ok c)
    (hn : c.len ≤ n) (hre : c.max_len < n → heap.isSome)
    (hw : c.start + c.len ≤ SIZE_MAX + 1) (hb : n ≤ SIZE_MAX / 8) :
    ∃ c', circular_resize heap (some c) n = some { ptr := true, obj := some c' } ∧
      ∀ i, i < c.len →
        (value_at (some c) i).isSome ∧ value_at (some c') i = value_at (some c) i := by
  obtain ⟨t, ht, hsz, _⟩ := storage_ok_tab c hcap hst
  have ho : c.start % c.max_len < c.max_len := Nat.mod_lt _ hcap
  have hsome : ∀ i, i < c.len → (value_at (some c) i).isSome :=
    fun i hi => value_at_isSome c hst i (by omega)
  rcases Nat.lt_trichotomy n c.max_len with hlt | heq | hgt
  · -- shrinking
    by_cases htwo : c.max_len < c.start % c.max_len + c.len
    · refine ⟨_, resize_shrink_upper heap c n hlt hn htwo, fun i hi => ⟨hsome i hi, ?_⟩⟩
      rw [ht, Option.map_some']
      by_cases hup : c.start % c.max_len + i < c.max_len
      · rw [old_value_upper c t ht i (by omega) (by omega) hup,
          new_value_direct _ _ _ _ _ _ hb (by omega),
          shrunk_get heap _ n _ hb (by omega) (by rw [memmove_length]; omega),
          memmove_get_moved t _ _ _ _ (by omega) (by omega) (by omega) (by omega)]
        congr 1; omega
      · rw [old_value_lower c t ht i (by omega) (by omega) (by omega),
          new_value_wrapped _ _ _ _ _ _ hb (by omega) (by omega) (by omega),
          shrunk_get heap _ n _ hb (by omega) (by rw [memmove_length]; omega),
          memmove_get_kept t _ _ _ _ (by omega)]
        congr 1; omega
    · by_cases hcut : n < c.start % c.max_len + c.len
      · refine ⟨_, resize_shrink_front heap c n hlt hn (by omega) hcut,
          fun i hi => ⟨hsome i hi, ?_⟩⟩
        rw [ht, Option.map_some', old_value_upper c t ht i (by omega) (by omega) (by omega),
          new_value_direct _ _ _ _ _ _ hb (by omega),
          shrunk_get heap _ n _ hb (by omega) (by rw [memmove_length]; omega),
          memmove_get_moved t _ _ _ _ (by omega) (by omega) (by omega) (by omega)]
        congr 1; omega
      · refine ⟨_, resize_shrink_keep heap c n hlt hn (by omega),
          fun i hi => ⟨hsome i hi, ?_⟩⟩
        rw [ht, old_value_upper c t ht i (by omega) (by omega) (by omega),
          new_value_direct _ _ _ _ _ _ hb (by omega),
          shrunk_get heap _ n _ hb (by omega) (by omega)]
  · -- same capacity
    subst heq
    exact ⟨c, resize_same heap c hlen, fun i hi => ⟨hsome i hi, rfl⟩⟩
  · -- growing
    obtain ⟨junk, rfl⟩ := Option.isSome_iff_exists.mp (hre hgt)
    by_cases htwo : c.max_len < c.start % c.max_len + c.len
    · by_cases hfit : c.len - (c.max_len - c.start % c.max_len) ≤ n - c.max_len
      · refine ⟨_, resize_grow_lower junk c n hcap hgt hn htwo hfit,
          fun i hi => ⟨hsome i hi, ?_⟩⟩
        rw [ht, memcpy_eq_memmove, new_value_direct _ _ _ _ _ _ hb (by omega), Option.some_bind]
        by_cases hup : c.start % c.max_len + i < c.max_len
        · rw [old_value_upper c t ht i (by omega) (by omega) hup,
            memmove_get_kept _ _ _ _ _ (by omega),
            resized_get junk t n _ hb (by omega) (by omega)]
        · rw [old_value_lower c t ht i (by omega) (by omega) (by omega),
            memmove_get_moved _ _ _ _ _ (by omega) (by omega)
              (by rw [resized_length _ _ _ hb]; omega) (by rw [resized_length _ _ _ hb]; omega),
            resized_get junk t n _ hb (by omega) (by omega)]
          congr 1; omega
      · refine ⟨_, resize_grow_upper junk c n hcap hgt hn htwo (by omega),
          fun i hi => ⟨hsome i hi, ?_⟩⟩
        rw [ht]
        by_cases hup : c.start % c.max_len + i < c.max_len
        · rw [old_value_upper c t ht i (by omega) (by omega) hup,
            new_value_direct _ _ _ _ _ _ hb (by omega), Option.some_bind,
            memmove_get_moved _ _ _ _ _ (by omega) (by omega)
              (by rw [resized_length _ _ _ hb]; omega) (by rw [resized_length _ _ _ hb]; omega),
            resized_get junk t n _ hb (by omega) (by omega)]
          congr 1; omega
        · rw [old_value_lower c t ht i (by omega) (by omega) (by omega),
            new_value_wrapped _ _ _ _ _ _ hb (by omega) (by omega) (by omega), Option.some_bind,
            memmove_get_kept _ _ _ _ _ (by omega),
            resized_get junk t n _ hb (by omega) (by omega)]
          congr 1; omega
    · refine ⟨_, resize_grow_single junk c n hcap hgt hn (by omega),
        fun i hi => ⟨hsome i hi, ?_⟩⟩
      rw [ht, old_value_upper c t ht i (by omega) (by omega) (by omega),
        new_value_direct _ _ _ _ _ _ hb (by omega), Option.some_bind,
        resized_get junk t n _ hb (by omega) (by omega)]

/-- Witness for C1: a full wrapped buffer with an un-normalised `start` (5 in a
buffer of capacity 4), grown to 6 slots. -/
theorem circular_resize_preserves_elements_witness :
    (0 < (4 : Nat) ∧ (4 : Nat) ≤ 4 ∧
      storage_ok ({ start := 5, len := 4, max_len := 4, tab := some [5, 2, 3, 4] } : circular Nat) ∧
      5 + 4 ≤ SIZE_MAX + 1 ∧ 6 ≤ SIZE_MAX / 8) ∧
    ∃ c', circular_resize (some fun _ => 0)
        (some ({ start := 5, len := 4, max_len := 4, tab := some [5, 2, 3, 4] } : circular Nat)) 6
          = some { ptr := true, obj := some c' } ∧
      ∀ i, i < 4 →
        (value_at (some ({ start := 5, len := 4, max_len := 4, tab := some [5, 2, 3, 4] } :
            circular Nat)) i).isSome ∧
        value_at (some c') i
          = value_at (some ({ start := 5, len := 4, max_len := 4, tab := some [5, 2, 3, 4] } :
            circular Nat)) i :=
  ⟨⟨by decide, by decide, by decide, by decide, by decide⟩,
    circular_resize_preserves_elements (some fun _ => 0)
      { start := 5, len := 4, max_len := 4, tab := some [5, 2, 3, 4] } 6
      (by decide) (by decide) (by decide) (by decide) (fun _ => rfl) (by decide) (by decide)⟩

/-- C1 fails on the code.  With `start = SIZE_MAX`, capacity 3 and two live
elements, `pos += c->start` wraps for position 1: elements 0 and 1 are both
read at slot 0, which holds 10, and after a resize to 6 (new `start` 0)
element 1 is read at slot 1, which holds 11.  With capacity 2, two live
elements and `n = 2^61 + 1`, `sizeof(double[n])` is 8 bytes: the resize
succeeds with capacity `n` and a block of one slot, and element 1 has no slot
in it. -/
theorem circular_resize_loses_elements :
    (circular_resize (some fun _ => 0)
        (some ({ start := SIZE_MAX, len := 2, max_len := 3, tab := some [10, 11, 12] } :
          circular Nat)) 6
      = some { ptr := true,
               obj := some { start := 0, len := 2, max_len := 6,
                             tab := some [10, 11, 12, 0, 0, 0] } } ∧
      value_at (some ({ start := SIZE_MAX, len := 2, max_len := 3, tab := some [10, 11, 12] } :
          circular Nat)) 1 = some 10 ∧
      value_at
        (some ({ start := 0, len := 2, max_len := 6, tab := some [10, 11, 12, 0, 0, 0] } :
          circular Nat)) 1 = some 11) ∧
    (circular_resize (some fun _ => 0)
        (some ({ start := 0, len := 2, max_len := 2, tab := some [10, 11] } : circular Nat))
        2305843009213693953
      = some { ptr := true,
               obj := some { start := 0, len := 2, max_len := 2305843009213693953,
                             tab := some [10] } } ∧
      value_at (some ({ start := 0, len := 2, max_len := 2, tab := some [10, 11] } :
          circular Nat)) 1 = some 11 ∧
      value_at
        (some ({ start := 0, len := 2, max_len := 2305843009213693953, tab := some [10] } :
          circular Nat)) 1 = none) := by
  refine ⟨⟨?_, ?_, ?_⟩, ⟨?_, ?_, ?_⟩⟩ <;> decide

/-- C2. A resize below the current length returns the null pointer and leaves
the buffer (start, length, capacity and storage) as it was. -/
theorem circular_resize_rejects_truncation {α : Type} (heap : Option (Nat → α))
    (c : Option (circular α)) (n : Nat) (h : n < circular_getlength c) :
    circular_resize heap c n = some { ptr := false, obj := c } := by
  cases c with
  | none => simp [circular_getlength] at h
  | some b => exact resize_reject heap b n h

/-- Witness for C2: a full wrapped buffer of four elements resized to three. -/
theorem circular_resize_rejects_truncation_witness :
    3 < circular_getlength
        (some ({ start := 1, len := 4, max_len := 4, tab := some [5, 2, 3, 4] } : circular Nat)) ∧
    circular_resize (some fun _ => 0)
        (some ({ start := 1, len := 4, max_len := 4, tab := some [5, 2, 3, 4] } : circular Nat)) 3
      = some { ptr := false,
               obj := some { start := 1, len := 4, max_len := 4, tab := some [5, 2, 3, 4] } } :=
  ⟨by decide,
    circular_resize_rejects_truncation (some fun _ => 0)
      (some { start := 1, len := 4, max_len := 4, tab := some [5, 2, 3, 4] }) 3 (by decide)⟩

/-! ## `circular_append` and `circular_pop` on the logical view -/

theorem mod_window_inj {s i j m : Nat} (hi : i < m) (hj : j < m)
    (h : (i + s) % m = (j + s) % m) : i = j := by
  have h1 : i % m = j % m := Nat.ModEq.add_right_cancel' s h
  rwa [Nat.mod_eq_of_lt hi, Nat.mod_eq_of_lt hj] at h1

theorem size_add_succ (i s : Nat) (hi : i < SIZE_MAX) :
    size_add i (size_add s 1) = size_add (i + 1) s := by
  unfold size_add
  by_cases hs : s ≤ SIZE_MAX
  · have h1 : (1 : Nat) ≤ SIZE_MAX := by unfold SIZE_MAX; omega
    have h2 : (s + 1) % (SIZE_MAX + 1) ≤ SIZE_MAX :=
      Nat.le_of_lt_succ (Nat.mod_lt _ (Nat.succ_pos _))
    have c1 : s ≤ SIZE_MAX ∧ 1 ≤ SIZE_MAX := ⟨hs, h1⟩
    have c2 : i ≤ SIZE_MAX ∧ (s + 1) % (SIZE_MAX + 1) ≤ SIZE_MAX := ⟨Nat.le_of_lt hi, h2⟩
    have c3 : i + 1 ≤ SIZE_MAX ∧ s ≤ SIZE_MAX := ⟨hi, hs⟩
    rw [if_pos c1, if_pos c2, if_pos c3, Nat.add_mod_mod]
    congr 1
    omega
  · have h3 : ¬ (s ≤ SIZE_MAX ∧ 1 ≤ SIZE_MAX) := fun h => hs h.1
    have h4 : ¬ (i ≤ SIZE_MAX ∧ s + 1 ≤ SIZE_MAX) := fun h => hs (by omega)
    have h5 : ¬ (i + 1 ≤ SIZE_MAX ∧ s ≤ SIZE_MAX) := fun h => hs h.2
    rw [if_neg h3, if_neg h4, if_neg h5]
    omega

theorem append_stored {α : Type} (b : circular α) (v : α) (h : b.len < b.max_len) :
    circular_append (some b) v =
      { ptr := true,
        obj := some { b with
          tab := b.tab.map fun t => t.set (size_add b.len b.start % b.max_len) v,
          len := b.len + 1 } } := by
  simp [circular_append, circular_element, h, circular_getpos,
    Nat.ne_of_gt (by omega : 0 < b.max_len)]

theorem append_full {α : Type} (b : circular α) (v : α) (h : b.max_len ≤ b.len) :
    circular_append (some b) v = { ptr := true, obj := some b } := by
  simp [circular_append, circular_element, Nat.not_lt.mpr h]

theorem append_value_new {α : Type} (b : circular α) (v : α) (h : b.len < b.max_len)
    (hst : storage_ok b) :
    value_at (some { b with
      tab := b.tab.map fun t => t.set (size_add b.len b.start % b.max_len) v,
      len := b.len + 1 }) b.len = some v := by
  obtain ⟨t, ht, hsz, _⟩ := storage_ok_tab b (by omega) hst
  have hlt : size_add b.len b.start % b.max_len < b.max_len := Nat.mod_lt _ (by omega)
  rw [value_at_slot _ _ (by simpa using h)]
  simp [slot, ht, List.getElem?_set]
  omega

theorem append_value_old {α : Type} (b : circular α) (v : α) (h : b.len < b.max_len)
    (hw : b.start + b.len ≤ SIZE_MAX) (i : Nat) (hi : i < b.len) :
    value_at (some { b with
      tab := b.tab.map fun t => t.set (size_add b.len b.start % b.max_len) v,
      len := b.len + 1 }) i = value_at (some b) i := by
  have hne : (b.len + b.start) % b.max_len ≠ (i + b.start) % b.max_len := fun he =>
    absurd (mod_window_inj h (by omega) he) (by omega)
  rw [value_at_eq _ _ (by simp; omega) (by simp; omega), value_at_eq b i (by omega) (by omega),
    size_add_eq (by omega : b.len + b.start ≤ SIZE_MAX)]
  cases ht : b.tab with
  | none => simp [slot, ht]
  | some t => simp [slot, ht, List.getElem?_set, hne]

theorem pop_taken {α : Type} [Zero α] (b : circular α) (h : b.len ≠ 0) (hcap : 0 < b.max_len) :
    circular_pop (some b) =
      ((slot b (b.start % b.max_len)).getD 0,
        some { b with start := size_add b.start 1, len := b.len - 1 }) := by
  simp [circular_pop, h, circular_element, hcap, circular_getpos_zero b hcap]

theorem pop_empty {α : Type} [Zero α] (b : circular α) (h : b.len = 0) :
    circular_pop (some b) = (0, some b) := by
  simp [circular_pop, h]

theorem pop_value_first {α : Type} (b : circular α) (hcap : 0 < b.max_len) :
    value_at (some b) 0 = slot b (b.start % b.max_len) := by
  rw [value_at_slot b 0 hcap, size_add_zero_left]

theorem pop_value_shift {α : Type} (b : circular α) (i : Nat) (hi : i + 1 < b.max_len)
    (hb : i < SIZE_MAX) :
    value_at (some { b with start := size_add b.start 1, len := b.len - 1 }) i
      = value_at (some b) (i + 1) := by
  rw [value_at_slot _ _ (by simp; omega), value_at_slot b (i + 1) hi]
  simp only [slot]
  rw [size_add_succ i b.start hb]

/-- C5 as the code has it.  On a buffer whose `tab` is a live block with
`max_len` slots, `circular_append` with `len < max_len` adds one to `len`, makes
logical element `len` hold the value and keeps `start` and `max_len`; when
`start + len ≤ SIZE_MAX` (the position of the new element does not wrap) it
keeps every logical element below `len`.  On a full buffer (`len ≥ max_len`,
capacity 0 included) it leaves the buffer as it was. -/
theorem circular_append_logical_view {α : Type} (b : circular α) (v : α)
    (hst : storage_ok b) :
    (b.len < b.max_len →
      ∃ b', (circular_append (some b) v).obj = some b' ∧
        b'.len = b.len + 1 ∧
        value_at (some b') b.len = some v ∧
        (b.start + b.len ≤ SIZE_MAX →
          ∀ i, i < b.len → value_at (some b') i = value_at (some b) i) ∧
        b'.start = b.start ∧ b'.max_len = b.max_len) ∧
    (b.max_len ≤ b.len → (circular_append (some b) v).obj = some b) := by
  refine ⟨fun h => ⟨_, by rw [append_stored b v h], rfl, append_value_new b v h hst,
    fun hw i hi => append_value_old b v h hw i hi, rfl, rfl⟩,
    fun h => by rw [append_full b v h]⟩

/-- Witness for C5: appending 9 to a wrapped buffer holding three of four
elements. -/
theorem circular_append_logical_view_witness :
    storage_ok ({ start := 2, len := 3, max_len := 4, tab := some [5, 2, 3, 4] } : circular Nat) ∧
    ∃ b', (circular_append
        (some ({ start := 2, len := 3, max_len := 4, tab := some [5, 2, 3, 4] } : circular Nat))
        9).obj = some b' ∧
      b'.len = 3 + 1 ∧
      value_at (some b') 3 = some 9 ∧
      (2 + 3 ≤ SIZE_MAX →
        ∀ i, i < 3 → value_at (some b') i
          = value_at (some ({ start := 2, len := 3, max_len := 4, tab := some [5, 2, 3, 4] } :
              circular Nat)) i) ∧
      b'.start = 2 ∧ b'.max_len = 4 :=
  ⟨by decide,
    (circular_append_logical_view
      ({ start := 2, len := 3, max_len := 4, tab := some [5, 2, 3, 4] } : circular Nat) 9
      (by decide)).1 (by decide)⟩

/-- C5 fails on the code.  With `start = SIZE_MAX`, capacity 3 and one live
element, positions 0 and 1 are both slot 0 (`pos += c->start` wraps for
position 1): the append of 99 overwrites the live element 10. -/
theorem circular_append_overwrites_live :
    ((1 : Nat) < 3 ∧
      storage_ok ({ start := SIZE_MAX, len := 1, max_len := 3, tab := some [10, 11, 12] } :
        circular Nat)) ∧
    circular_append
        (some ({ start := SIZE_MAX, len := 1, max_len := 3, tab := some [10, 11, 12] } :
          circular Nat)) 99
      = { ptr := true,
          obj := some { start := SIZE_MAX, len := 2, max_len := 3, tab := some [99, 11, 12] } } ∧
    value_at (some ({ start := SIZE_MAX, len := 1, max_len := 3, tab := some [10, 11, 12] } :
        circular Nat)) 0 = some 10 ∧
    value_at (some ({ start := SIZE_MAX, len := 2, max_len := 3, tab := some [99, 11, 12] } :
        circular Nat)) 0 = some 99 := by
  refine ⟨⟨?_, ?_⟩, ?_, ?_, ?_⟩ <;> decide

/-- C6, the code at a full buffer and at a buffer with room: the returned
pointer is the (non-null) argument in both, whether the value was stored or
not. -/
theorem circular_append_same_signal :
    circular_append (some ({ start := 0, len := 1, max_len := 1, tab := some [7] } : circular Nat)) 9
      = { ptr := true, obj := some { start := 0, len := 1, max_len := 1, tab := some [7] } } ∧
    circular_append (some ({ start := 0, len := 0, max_len := 1, tab := some [7] } : circular Nat)) 9
      = { ptr := true, obj := some { start := 0, len := 1, max_len := 1, tab := some [9] } } := by
  constructor <;> rfl

/-- C7. `circular_pop` on an absent or empty buffer returns 0 and changes
nothing; on a non-empty buffer with `len ≤ max_len` whose storage has `max_len`
slots it returns the value logical element 0 held, takes one from `len`, keeps
`max_len`, and logical element `i` afterwards holds what logical element
`i + 1` held, for every `i + 1 < len`. -/
theorem circular_pop_logical_view {α : Type} [Zero α] (c : Option (circular α)) :
    ((c = none ∨ circular_getlength c = 0) → circular_pop c = (0, c)) ∧
    (∀ b, c = some b → b.len ≠ 0 → b.len ≤ b.max_len → storage_ok b →
      ∃ b', (circular_pop c).2 = some b' ∧
        value_at (some b) 0 = some (circular_pop c).1 ∧
        b'.len + 1 = b.len ∧ b'.max_len = b.max_len ∧
        ∀ i, i + 1 < b.len → value_at (some b') i = value_at (some b) (i + 1)) := by
  constructor
  · rintro (rfl | h)
    · rfl
    · cases c with
      | none => rfl
      | some b => exact pop_empty b h
  · rintro b rfl hne hlen hst
    have hcap : 0 < b.max_len := by omega
    have hsome := value_at_isSome b hst 0 hcap
    rw [pop_value_first b hcap] at hsome
    obtain ⟨x, hx⟩ := Option.isSome_iff_exists.mp hsome
    have hbound := storage_ok_bound b hst
    refine ⟨{ b with start := size_add b.start 1, len := b.len - 1 },
      by rw [pop_taken b hne hcap], ?_, ?_, rfl,
      fun i hi => pop_value_shift b i (by omega) (by omega)⟩
    · rw [pop_taken b hne hcap, pop_value_first b hcap, hx]; rfl
    · show b.len - 1 + 1 = b.len
      omega

/-- Witness for C7: popping from a wrapped buffer holding 4, 5, 2. -/
theorem circular_pop_logical_view_witness :
    ∃ b', (circular_pop
        (some ({ start := 3, len := 3, max_len := 4, tab := some [5, 2, 3, 4] } : circular Nat))).2
          = some b' ∧
      value_at (some ({ start := 3, len := 3, max_len := 4, tab := some [5, 2, 3, 4] } :
          circular Nat)) 0
        = some (circular_pop
            (some ({ start := 3, len := 3, max_len := 4, tab := some [5, 2, 3, 4] } :
              circular Nat))).1 ∧
      b'.len + 1 = 3 ∧ b'.max_len = 4 ∧
      ∀ i, i + 1 < 3 → value_at (some b') i
        = value_at (some ({ start := 3, len := 3, max_len := 4, tab := some [5, 2, 3, 4] } :
            circular Nat)) (i + 1) :=
  (circular_pop_logical_view
    (some ({ start := 3, len := 3, max_len := 4, tab := some [5, 2, 3, 4] } : circular Nat))).2
    _ rfl (by decide) (by decide) (by decide)

/-- C8 as the code has it.  `circular_element` returns the null pointer exactly
when the buffer is absent or `pos ≥ max_len`; for `pos < max_len` it returns a
slot below `max_len`, which for `size_t` values `start` and `pos` is
`((start + pos) % (SIZE_MAX + 1)) % max_len`, and is `(start + pos) % max_len`
when `start + pos ≤ SIZE_MAX`. -/
theorem circular_element_bound {α : Type} (c : Option (circular α)) (pos : Nat) :
    (circular_element c pos = none ↔ (c = none ∨ ∃ b, c = some b ∧ b.max_len ≤ pos)) ∧
    (∀ b, c = some b → pos < b.max_len →
      ∃ p, circular_element c pos = some p ∧ p < b.max_len ∧
        (b.start ≤ SIZE_MAX → pos ≤ SIZE_MAX →
          p = (b.start + pos) % (SIZE_MAX + 1) % b.max_len) ∧
        (b.start + pos ≤ SIZE_MAX → p = (b.start + pos) % b.max_len)) := by
  cases c with
  | none => simp [circular_element]
  | some b =>
    constructor
    · by_cases h : pos < b.max_len
      · simp [circular_element, h, circular_getpos, Nat.ne_of_gt (by omega : 0 < b.max_len)]
      · simp [circular_element, h]; omega
    · rintro b' hb h
      cases hb
      refine ⟨size_add pos b.start % b.max_len, ?_, Nat.mod_lt _ (by omega), ?_, ?_⟩
      · simp [circular_element, h, circular_getpos, Nat.ne_of_gt (by omega : 0 < b.max_len)]
      · intro h1 h2
        have hc : pos ≤ SIZE_MAX ∧ b.start ≤ SIZE_MAX := ⟨h2, h1⟩
        unfold size_add
        rw [if_pos hc, Nat.add_comm]
      · intro hw
        rw [size_add_eq (by omega), Nat.add_comm]

/-- Witness for C8 as the code has it: position 3 of a buffer of capacity 4
with `start` 6 is slot 1. -/
theorem circular_element_bound_witness :
    ∃ p, circular_element
        (some ({ start := 6, len := 0, max_len := 4, tab := some [5, 2, 3, 4] } : circular Nat)) 3
      = some p ∧ p < 4 ∧
      (6 ≤ SIZE_MAX → 3 ≤ SIZE_MAX → p = (6 + 3) % (SIZE_MAX + 1) % 4) ∧
      (6 + 3 ≤ SIZE_MAX → p = (6 + 3) % 4) :=
  (circular_element_bound
    (some ({ start := 6, len := 0, max_len := 4, tab := some [5, 2, 3, 4] } : circular Nat)) 3).2
    _ rfl (by decide)

/-- C8 fails on the code.  With `start = SIZE_MAX` and capacity 3, position 1
is slot 0, because `pos += c->start` wraps to 0, while
`(start + pos) mod capacity` is 1. -/
theorem circular_element_wraps :
    circular_element
        (some ({ start := SIZE_MAX, len := 0, max_len := 3, tab := some [10, 11, 12] } :
          circular Nat)) 1 = some 0 ∧
    (SIZE_MAX + 1) % 3 = 1 := by
  constructor <;> decide

/-! ## The queue held by a buffer -/

theorem init_block {α : Type} (junk : Nat → α) (g : circular α) (n : Nat) (hn : 0 < n) :
    circular_init (some junk) (some g) n =
      some { start := 0, len := 0, max_len := n,
             tab := some ((List.range (slots n)).map junk) } := by
  simp [circular_init, malloc, Nat.ne_of_gt hn]

theorem init_fresh {α : Type} (junk : Nat → α) (g : circular α) (n : Nat) (hn : 0 < n)
    (hb : n ≤ SIZE_MAX / 8) :
    circular_init (some junk) (some g) n =
      some { start := 0, len := 0, max_len := n, tab := some ((List.range n).map junk) } := by
  rw [init_block junk g n hn, slots_eq hb]

theorem storage_ok_fresh {α : Type} (junk : Nat → α) (n : Nat) (hb : n ≤ SIZE_MAX / 8) :
    storage_ok ({ start := 0, len := 0, max_len := n,
                  tab := some ((List.range n).map junk) } : circular α) := by
  simp only [storage_ok, storage_size, List.length_map, List.length_range]
  exact ⟨trivial, Nat.le_refl _, by omega⟩

theorem storage_ok_append {α : Type} (b : circular α) (v : α) (k : Nat) (hst : storage_ok b) :
    storage_ok { b with tab := b.tab.map fun t => t.set k v, len := b.len + 1 } := by
  unfold storage_ok storage_size at *
  cases ht : b.tab with
  | none => simpa [ht] using hst
  | some t => simpa [ht] using hst

theorem storage_ok_pop {α : Type} (b : circular α) (s l : Nat) (hst : storage_ok b) :
    storage_ok { b with start := s, len := l } := by
  simpa [storage_ok, storage_size] using hst

theorem size_add_one_le {s : Nat} (hs : s ≤ SIZE_MAX) :
    size_add s 1 ≤ SIZE_MAX ∧ size_add s 1 ≤ s + 1 ∧ (s = SIZE_MAX → size_add s 1 = 0) := by
  have h1 : (1 : Nat) ≤ SIZE_MAX := by unfold SIZE_MAX; omega
  have hc : s ≤ SIZE_MAX ∧ 1 ≤ SIZE_MAX := ⟨hs, h1⟩
  unfold size_add
  rw [if_pos hc]
  refine ⟨Nat.le_of_lt_succ (Nat.mod_lt _ (Nat.succ_pos _)), Nat.mod_le _ _, fun h => ?_⟩
  rw [h, Nat.mod_self]

theorem contents_append {α : Type} (b : circular α) (v : α) (h : b.len < b.max_len)
    (hst : storage_ok b) (hw : b.start + b.len ≤ SIZE_MAX) :
    contents { b with
      tab := b.tab.map fun t => t.set (size_add b.len b.start % b.max_len) v,
      len := b.len + 1 } = contents b ++ [some v] := by
  unfold contents
  simp only [List.range_succ, List.map_append, List.map_cons, List.map_nil]
  rw [append_value_new b v h hst]
  congr 1
  apply List.map_congr_left
  intro i hi
  exact append_value_old b v h hw i (List.mem_range.mp hi)

theorem contents_pop {α : Type} (b : circular α) (hne : b.len ≠ 0) (hlen : b.len ≤ b.max_len)
    (hb : b.max_len ≤ SIZE_MAX) :
    contents b =
      value_at (some b) 0 ::
        contents { b with start := size_add b.start 1, len := b.len - 1 } := by
  unfold contents
  obtain ⟨k, hk⟩ := Nat.exists_eq_succ_of_ne_zero hne
  simp only [hk, Nat.succ_sub_one, List.range_succ_eq_map, List.map_cons, List.map_map]
  congr 1
  apply List.map_congr_left
  intro i hi
  have := List.mem_range.mp hi
  exact (pop_value_shift b i (by omega) (by omega)).symm

theorem pop_returns_head {α : Type} [Zero α] (b : circular α) (x : α) (q : List α)
    (hlen : b.len ≤ b.max_len) (hb : b.max_len ≤ SIZE_MAX)
    (hq : contents b = (x :: q).map some) :
    circular_pop (some b)
        = (x, some { b with start := size_add b.start 1, len := b.len - 1 }) ∧
      contents { b with start := size_add b.start 1, len := b.len - 1 } = q.map some := by
  have hne : b.len ≠ 0 := by
    intro h0
    simp [contents, h0] at hq
  rw [contents_pop b hne hlen hb, List.map_cons, List.cons.injEq] at hq
  refine ⟨?_, hq.2⟩
  rw [pop_taken b hne (by omega), ← pop_value_first b (by omega), hq.1]
  rfl

theorem contents_length {α : Type} (b : circular α) : (contents b).length = b.len := by
  simp [contents]

theorem fifo_prefix {α : Type} [Zero α] (ops : List (Op α)) :
    ∀ (b : circular α) (q : List α), storage_ok b → b.len ≤ b.max_len →
      b.start ≤ SIZE_MAX → b.start + b.len + (appended ops).length ≤ SIZE_MAX + 1 →
      contents b = q.map some → admissible (some b) ops = true →
      ∃ rest, q ++ appended ops = popped (some b) ops ++ rest := by
  induction ops with
  | nil => intro b q _ _ _ _ _ _; exact ⟨q ++ appended [], by simp [popped]⟩
  | cons op ops ih =>
    intro b q hst hlen hs hw hq hadm
    have hbound := storage_ok_bound b hst
    cases op with
    | append v =>
      simp only [admissible, Bool.and_eq_true, decide_eq_true_eq, circular_getlength,
        capacity] at hadm
      obtain ⟨hroom, hadm⟩ := hadm
      simp only [appended, List.length_cons] at hw
      rw [append_stored b v hroom] at hadm
      obtain ⟨rest, hrest⟩ := ih _ (q ++ [v]) (storage_ok_append b v _ hst)
        (Nat.succ_le_of_lt hroom) hs (by show b.start + (b.len + 1) + _ ≤ _; omega)
        (by rw [contents_append b v hroom hst (by omega), hq]; simp) hadm
      refine ⟨rest, ?_⟩
      simp only [appended, popped]
      rw [append_stored b v hroom, ← hrest]
      simp
    | pop =>
      simp only [admissible, Bool.and_eq_true, decide_eq_true_eq, circular_getlength] at hadm
      obtain ⟨hpos, hadm⟩ := hadm
      simp only [appended] at hw
      cases q with
      | nil =>
        have := contents_length b
        rw [hq] at this
        simp at this
        omega
      | cons x q =>
        obtain ⟨hpop, hq'⟩ := pop_returns_head b x q hlen (by omega) hq
        obtain ⟨h1, h2, _⟩ := size_add_one_le hs
        rw [hpop] at hadm
        obtain ⟨rest, hrest⟩ := ih _ q (storage_ok_pop b _ _ hst)
          (by show b.len - 1 ≤ b.max_len; omega) h1
          (by show size_add b.start 1 + (b.len - 1) + _ ≤ _; omega) hq' hadm
        refine ⟨rest, ?_⟩
        simp only [appended, popped]
        rw [hpop]
        simp only [List.cons_append, List.cons.injEq, true_and]
        exact hrest

/-- C3 as the code has it.  On a freshly created buffer of capacity `n` with
`0 < n ≤ SIZE_MAX / 8` (the block has `n` slots), in every session of
`circular_append` and `circular_pop` calls that appends only while
`len < max_len`, pops only while `len > 0` and makes at most `SIZE_MAX + 1`
appends (so that `start + len` does not pass `SIZE_MAX + 1`), the `k`-th value
returned by `circular_pop` is the `k`-th value passed to `circular_append`. -/
theorem circular_queue_fifo {α : Type} [Zero α] (junk : Nat → α) (g : circular α) (n : Nat)
    (hn : 0 < n) (hb : n ≤ SIZE_MAX / 8) (ops : List (Op α))
    (hadm : admissible (circular_init (some junk) (some g) n) ops = true)
    (happ : (appended ops).length ≤ SIZE_MAX + 1) :
    ∀ k, k < (popped (circular_init (some junk) (some g) n) ops).length →
      (popped (circular_init (some junk) (some g) n) ops)[k]? = (appended ops)[k]? := by
  rw [init_fresh junk g n hn hb] at hadm ⊢
  obtain ⟨rest, hrest⟩ := fifo_prefix ops
    { start := 0, len := 0, max_len := n, tab := some ((List.range n).map junk) } []
    (storage_ok_fresh junk n hb) (Nat.zero_le _) (Nat.zero_le _)
    (by show 0 + 0 + _ ≤ _; omega) rfl hadm
  intro k hk
  rw [List.nil_append] at hrest
  rw [hrest, List.getElem?_append_left hk]

/-- Witness for C3 as the code has it: capacity 2, session append 1, append 2,
pop, append 3, pop, pop. -/
theorem circular_queue_fifo_witness :
    (0 < 2 ∧ 2 ≤ SIZE_MAX / 8 ∧
      admissible (circular_init (some fun _ => 0)
        (some ({ start := 9, len := 9, max_len := 9, tab := none } : circular Nat)) 2)
        [.append 1, .append 2, .pop, .append 3, .pop, .pop] = true ∧
      (appended [Op.append 1, .append 2, .pop, .append 3, .pop, .pop]).length
        ≤ SIZE_MAX + 1) ∧
    ∀ k, k < (popped (circular_init (some fun _ => 0)
        (some ({ start := 9, len := 9, max_len := 9, tab := none } : circular Nat)) 2)
        [.append 1, .append 2, .pop, .append 3, .pop, .pop]).length →
      (popped (circular_init (some fun _ => 0)
        (some ({ start := 9, len := 9, max_len := 9, tab := none } : circular Nat)) 2)
        [.append 1, .append 2, .pop, .append 3, .pop, .pop])[k]?
        = (appended [Op.append 1, .append 2, .pop, .append 3, .pop, .pop])[k]? :=
  ⟨⟨by decide, by decide, by decide, by decide⟩,
    circular_queue_fifo (fun _ => 0) { start := 9, len := 9, max_len := 9, tab := none } 2
      (by decide) (by decide) [.append 1, .append 2, .pop, .append 3, .pop, .pop] (by decide)
      (by decide)⟩

/-! ## Sessions that pass `SIZE_MAX` -/

theorem appended_pairs (k : Nat) (rest : List (Op Nat)) :
    appended (append_pop_pairs k rest) = List.replicate k 0 ++ appended rest := by
  induction k with
  | zero => simp [append_pop_pairs]
  | succ k ih => simp [append_pop_pairs, appended, ih, List.replicate_succ]

theorem size_add_one_eq {s : Nat} (hs : s ≤ SIZE_MAX) :
    size_add s 1 = (s + 1) % (SIZE_MAX + 1) := by
  have h1 : (1 : Nat) ≤ SIZE_MAX := by unfold SIZE_MAX; omega
  have hc : s ≤ SIZE_MAX ∧ 1 ≤ SIZE_MAX := ⟨hs, h1⟩
  unfold size_add
  rw [if_pos hc]

theorem pairs_step (s m w : Nat) (hcap : 0 < m) (hsz : m ≤ w) :
    circular_append
        (some ({ start := s, len := 0, max_len := m, tab := some (List.replicate w 0) } :
          circular Nat)) 0 =
      { ptr := true,
        obj := some { start := s, len := 1, max_len := m, tab := some (List.replicate w 0) } } ∧
    circular_pop
        (some ({ start := s, len := 1, max_len := m, tab := some (List.replicate w 0) } :
          circular Nat)) =
      (0, some { start := size_add s 1, len := 0, max_len := m,
                 tab := some (List.replicate w 0) }) := by
  have hidx : s % m < w := Nat.lt_of_lt_of_le (Nat.mod_lt _ hcap) hsz
  constructor
  · rw [append_stored _ 0 (by simpa using hcap)]
    simp
  · rw [pop_taken _ (by simp) (by simpa using hcap)]
    simp [slot, hidx]

theorem pairs_run (k : Nat) (rest : List (Op Nat)) (m w : Nat) (hcap : 0 < m) (hsz : m ≤ w) :
    ∀ s, s ≤ SIZE_MAX →
      popped (some ({ start := s, len := 0, max_len := m,
                      tab := some (List.replicate w 0) } : circular Nat))
          (append_pop_pairs k rest) =
        List.replicate k 0 ++
          popped (some ({ start := (s + k) % (SIZE_MAX + 1), len := 0, max_len := m,
                          tab := some (List.replicate w 0) } : circular Nat)) rest ∧
      admissible (some ({ start := s, len := 0, max_len := m,
                          tab := some (List.replicate w 0) } : circular Nat))
          (append_pop_pairs k rest) =
        admissible (some ({ start := (s + k) % (SIZE_MAX + 1), len := 0, max_len := m,
                            tab := some (List.replicate w 0) } : circular Nat)) rest := by
  induction k with
  | zero =>
    intro s hs
    simp only [append_pop_pairs, List.replicate_zero, List.nil_append, Nat.add_zero]
    rw [Nat.mod_eq_of_lt (by omega)]
    exact ⟨rfl, rfl⟩
  | succ k ih =>
    intro s hs
    obtain ⟨happ, hpop⟩ := pairs_step s m w hcap hsz
    obtain ⟨hp, ha⟩ := ih (size_add s 1) (size_add_one_le hs).1
    have hst : (size_add s 1 + k) % (SIZE_MAX + 1) = (s + (k + 1)) % (SIZE_MAX + 1) := by
      rw [size_add_one_eq hs, Nat.mod_add_mod]
      congr 1
      omega
    rw [hst] at hp ha
    constructor
    · simp only [append_pop_pairs, popped, happ, hpop, List.replicate_succ, List.cons_append]
      rw [hp]
    · simp only [append_pop_pairs, admissible, happ, hpop, circular_getlength, capacity]
      rw [ha]
      simp [hcap]

/-- C3 fails on the code.  With capacity `2^61 + 1` the block requested has 8
bytes, one slot: the second append goes through a pointer to slot 1, outside
the block, and the second pop (which reads 0 in the model) does not return the
second value appended.  With capacity 3, after `SIZE_MAX` times append and pop
the field `start` is `SIZE_MAX`; the next two appends, of 1 and 2, both write
slot 0, and the next pop returns 2 where 1 was appended. -/
theorem circular_queue_fifo_breaks :
    (circular_init (some fun _ => 0)
        (some ({ start := 9, len := 9, max_len := 9, tab := none } : circular Nat))
        2305843009213693953
        = some { start := 0, len := 0, max_len := 2305843009213693953, tab := some [0] } ∧
      circular_element
        (some ({ start := 0, len := 1, max_len := 2305843009213693953, tab := some [1] } :
          circular Nat)) 1 = some 1 ∧
      admissible (circular_init (some fun _ => 0)
        (some ({ start := 9, len := 9, max_len := 9, tab := none } : circular Nat))
        2305843009213693953) [.append 1, .append 2, .pop, .pop] = true ∧
      (popped (circular_init (some fun _ => 0)
        (some ({ start := 9, len := 9, max_len := 9, tab := none } : circular Nat))
        2305843009213693953) [.append 1, .append 2, .pop, .pop])[1]? = some 0 ∧
      (appended [Op.append 1, .append 2, .pop, .pop])[1]? = some 2) ∧
    (admissible (circular_init (some fun _ => 0)
        (some ({ start := 9, len := 9, max_len := 9, tab := none } : circular Nat)) 3)
        (append_pop_pairs SIZE_MAX [.append 1, .append 2, .pop, .pop]) = true ∧
      (popped (circular_init (some fun _ => 0)
        (some ({ start := 9, len := 9, max_len := 9, tab := none } : circular Nat)) 3)
        (append_pop_pairs SIZE_MAX [.append 1, .append 2, .pop, .pop]))[SIZE_MAX]? = some 2 ∧
      (appended (append_pop_pairs SIZE_MAX [.append 1, .append 2, .pop, .pop]))[SIZE_MAX]?
        = some 1) := by
  refine ⟨⟨by decide, by decide, by decide, by decide, by decide⟩, ?_⟩
  have hinit : circular_init (some fun _ => 0)
      (some ({ start := 9, len := 9, max_len := 9, tab := none } : circular Nat)) 3
      = some { start := 0, len := 0, max_len := 3, tab := some (List.replicate 3 0) } := by
    decide
  obtain ⟨hp, ha⟩ := pairs_run SIZE_MAX [.append 1, .append 2, .pop, .pop] 3 3
    (by decide) (by decide) 0 (Nat.zero_le _)
  have hf1 :
      popped (some ({ start := (0 + SIZE_MAX) % (SIZE_MAX + 1), len := 0, max_len := 3,
                      tab := some (List.replicate 3 0) } : circular Nat))
        [.append 1, .append 2, .pop, .pop] = [2, 2] := by decide
  have hf2 :
      admissible (some ({ start := (0 + SIZE_MAX) % (SIZE_MAX + 1), len := 0, max_len := 3,
                          tab := some (List.replicate 3 0) } : circular Nat))
        [.append 1, .append 2, .pop, .pop] = true := by decide
  rw [hinit, ha, hp, appended_pairs, hf1]
  refine ⟨hf2, ?_, ?_⟩
  · rw [List.getElem?_append_right (by simp)]
    simp
  · rw [List.getElem?_append_right (by simp)]
    simp [appended]

theorem resize_undefined {α : Type} (heap : Option (Nat → α)) (b : circular α) (n : Nat)
    (hlen : b.len ≤ n) (hn : n ≠ b.max_len) (hcap : b.max_len = 0) :
    circular_resize heap (some b) n = none := by
  rw [hcap] at hn
  simp [circular_resize, Nat.not_lt.mpr hlen, hn, circular_getpos, hcap]

theorem resize_fields {α : Type} (heap : Option (Nat → α)) (b : circular α) (n : Nat)
    (r : Ret α) (h : circular_resize heap (some b) n = some r) :
    (r.ptr = false ∧
      ∃ b', r.obj = some b' ∧ b'.len = b.len ∧ b'.max_len = b.max_len ∧ b'.start = b.start) ∨
    (n = b.max_len ∧ r = { ptr := true, obj := some b }) ∨
    (n ≠ b.max_len ∧ b.len ≤ n ∧ 0 < b.max_len ∧
      ∃ b', r = { ptr := true, obj := some b' } ∧ b'.len = b.len ∧ b'.max_len = n ∧
        b'.start ≤ n ∧ (0 < b.len → b'.start < n)) := by
  have ho : 0 < b.max_len → b.start % b.max_len < b.max_len := fun hc => Nat.mod_lt _ hc
  rcases Nat.lt_or_ge n b.len with hrej | hlen
  · rw [resize_reject heap b n hrej] at h
    cases h
    exact Or.inl ⟨rfl, b, rfl, rfl, rfl, rfl⟩
  rcases Nat.lt_trichotomy n b.max_len with hlt | heq | hgt
  · right; right
    have hcap : 0 < b.max_len := by omega
    have ho := ho hcap
    refine ⟨by omega, hlen, hcap, ?_⟩
    by_cases htwo : b.max_len < b.start % b.max_len + b.len
    · rw [resize_shrink_upper heap b n hlt hlen htwo] at h
      exact ⟨_, (Option.some.inj h).symm, rfl, rfl, Nat.sub_le _ _,
        fun _ => by show n - (b.max_len - b.start % b.max_len) < n; omega⟩
    · by_cases hcut : n < b.start % b.max_len + b.len
      · rw [resize_shrink_front heap b n hlt hlen (by omega) hcut] at h
        exact ⟨_, (Option.some.inj h).symm, rfl, rfl, Nat.zero_le _,
          fun hp => by show 0 < n; omega⟩
      · rw [resize_shrink_keep heap b n hlt hlen (by omega)] at h
        exact ⟨_, (Option.some.inj h).symm, rfl, rfl,
          by show b.start % b.max_len ≤ n; omega,
          fun hp => by show b.start % b.max_len < n; omega⟩
  · subst heq
    rw [resize_same heap b hlen] at h
    exact Or.inr (Or.inl ⟨rfl, (Option.some.inj h).symm⟩)
  · rcases Nat.eq_zero_or_pos b.max_len with hz | hcap
    · rw [resize_undefined heap b n hlen (by omega) hz] at h
      exact absurd h (by simp)
    have ho := ho hcap
    cases heap with
    | none =>
      rw [resize_grow_fail b n hcap hgt hlen] at h
      cases h
      exact Or.inl ⟨rfl, _, rfl, rfl, rfl, rfl⟩
    | some junk =>
      right; right
      refine ⟨by omega, hlen, hcap, ?_⟩
      by_cases htwo : b.max_len < b.start % b.max_len + b.len
      · by_cases hfit : b.len - (b.max_len - b.start % b.max_len) ≤ n - b.max_len
        · rw [resize_grow_lower junk b n hcap hgt hlen htwo hfit] at h
          exact ⟨_, (Option.some.inj h).symm, rfl, rfl,
            by show b.start % b.max_len ≤ n; omega,
            fun _ => by show b.start % b.max_len < n; omega⟩
        · rw [resize_grow_upper junk b n hcap hgt hlen htwo (by omega)] at h
          exact ⟨_, (Option.some.inj h).symm, rfl, rfl, Nat.sub_le _ _,
            fun _ => by show n - (b.max_len - b.start % b.max_len) < n; omega⟩
      · rw [resize_grow_single junk b n hcap hgt hlen (by omega)] at h
        exact ⟨_, (Option.some.inj h).symm, rfl, rfl,
          by show b.start % b.max_len ≤ n; omega,
          fun _ => by show b.start % b.max_len < n; omega⟩

theorem init_fields {α : Type} (heap : Option (Nat → α)) (g : circular α) (n : Nat) :
    ∃ b, circular_init heap (some g) n = some b ∧ b.start = 0 ∧ b.len = 0 := by
  unfold circular_init
  by_cases hn : n = 0
  · simp [hn]
  · cases heap <;> simp [hn, malloc]

theorem call_keeps_length_bound {α : Type} [Zero α] (k : Call α) (b : circular α)
    (c' : Option (circular α)) (hlen : b.len ≤ b.max_len) (h : call (some b) k = some c') :
    ∃ b', c' = some b' ∧ b'.len ≤ b'.max_len := by
  cases k with
  | append v =>
    simp only [call, Option.some.injEq] at h
    subst h
    rcases Nat.lt_or_ge b.len b.max_len with hroom | hfull
    · rw [append_stored b v hroom]
      exact ⟨_, rfl, Nat.succ_le_of_lt hroom⟩
    · rw [append_full b v hfull]
      exact ⟨b, rfl, hlen⟩
  | pop =>
    simp only [call, Option.some.injEq] at h
    subst h
    by_cases hz : b.len = 0
    · rw [pop_empty b hz]
      exact ⟨b, rfl, hlen⟩
    · rw [pop_taken b hz (by omega)]
      exact ⟨_, rfl, by show b.len - 1 ≤ b.max_len; omega⟩
  | resize heap n =>
    simp only [call, Option.map_eq_some'] at h
    obtain ⟨r, hr, rfl⟩ := h
    rcases resize_fields heap b n r hr with
      ⟨_, b', h1, h2, h3, _⟩ | ⟨_, h1⟩ | ⟨_, hn, _, b', h1, h2, h3, _⟩
    · exact ⟨b', h1, by omega⟩
    · subst h1; exact ⟨b, rfl, hlen⟩
    · subst h1; exact ⟨b', rfl, by omega⟩
  | destroy =>
    simp only [call, circular_destroy, circular_init] at h
    by_cases hd : b.dangling
    · simp [hd] at h
    · simp only [hd, Bool.false_eq_true, if_false, ne_eq, not_true_eq_false,
        Option.some.injEq] at h
      subst h
      exact ⟨_, rfl, Nat.le_refl _⟩

theorem run_keeps_length_bound {α : Type} [Zero α] (ks : List (Call α)) :
    ∀ (b c : circular α), b.len ≤ b.max_len → run (some b) ks = some (some c) →
      c.len ≤ c.max_len := by
  induction ks with
  | nil =>
    intro b c hlen h
    simp only [run, Option.some.injEq] at h
    subst h
    exact hlen
  | cons k ks ih =>
    intro b c hlen h
    simp only [run, Option.bind_eq_some] at h
    obtain ⟨c', hk, hrest⟩ := h
    obtain ⟨b', rfl, hlen'⟩ := call_keeps_length_bound k b c' hlen hk
    exact ih b' c hlen' hrest

/-- C10. In every state reached from `circular_init` by a sequence of
`circular_append`, `circular_pop`, `circular_resize` (successful or rejected)
and `circular_destroy` calls, `len ≤ max_len`. -/
theorem circular_length_invariant {α : Type} [Zero α] (heap : Option (Nat → α))
    (g : circular α) (n : Nat) (ks : List (Call α)) (c : circular α)
    (h : run (circular_init heap (some g) n) ks = some (some c)) :
    c.len ≤ c.max_len := by
  obtain ⟨b, hb, _, hl⟩ := init_fields heap g n
  rw [hb] at h
  exact run_keeps_length_bound ks b c (by omega) h

/-- Witness for C10: capacity 2; append, append, rejected resize to 1, pop,
resize to 5, append, resize to 2 whose `realloc` returns null. -/
theorem circular_length_invariant_witness :
    run (circular_init (some fun _ => 0)
        (some ({ start := 9, len := 9, max_len := 9, tab := none } : circular Nat)) 2)
        [.append 1, .append 2, .resize none 1, .pop, .resize (some fun _ => 0) 5, .append 3,
          .resize none 2]
      = some (some { start := 0, len := 2, max_len := 2, tab := some [2, 3, 3, 0, 0] }) ∧
    (2 : Nat) ≤ 2 :=
  ⟨by decide,
    circular_length_invariant (some fun _ => 0)
      { start := 9, len := 9, max_len := 9, tab := none } 2
      [.append 1, .append 2, .resize none 1, .pop, .resize (some fun _ => 0) 5, .append 3,
          .resize none 2]
      { start := 0, len := 2, max_len := 2, tab := some [2, 3, 3, 0, 0] } (by decide)⟩

theorem resize_copy_grow {α : Type} (junk : Nat → α) (c : circular α) (n : Nat)
    (hcap : 0 < c.max_len) (hn : c.max_len < n) (hlen : c.len ≤ n) :
    ∃ s, circular_resize (some junk) (some c) n =
      some { ptr := true,
             obj := some { max_len := n, start := s, len := c.len,
                           tab := some (apply_copy (circular_resize_copy c n)
                             (resized junk c.tab n)) } } := by
  by_cases htwo : c.max_len < c.start % c.max_len + c.len
  · by_cases hfit : c.len - (c.max_len - c.start % c.max_len) ≤ n - c.max_len
    · refine ⟨c.start % c.max_len, ?_⟩
      rw [resize_grow_lower junk c n hcap hn hlen htwo hfit]
      simp [circular_resize_copy, apply_copy, Nat.not_lt.mpr hlen, Nat.ne_of_gt hn,
        circular_getpos_zero c hcap, hn, htwo, hfit]
    · refine ⟨n - (c.max_len - c.start % c.max_len), ?_⟩
      rw [resize_grow_upper junk c n hcap hn hlen htwo (by omega)]
      simp [circular_resize_copy, apply_copy, Nat.not_lt.mpr hlen, Nat.ne_of_gt hn,
        circular_getpos_zero c hcap, hn, htwo, hfit]
  · refine ⟨c.start % c.max_len, ?_⟩
    rw [resize_grow_single junk c n hcap hn hlen (by omega)]
    simp [circular_resize_copy, apply_copy, Nat.not_lt.mpr hlen, Nat.ne_of_gt hn,
      circular_getpos_zero c hcap, hn, htwo]

theorem resize_copy_shrink {α : Type} (heap : Option (Nat → α)) (c : circular α) (n : Nat)
    (hn : n < c.max_len) (hlen : c.len ≤ n) :
    ∃ s, circular_resize heap (some c) n =
      some { ptr := true,
             obj := some { max_len := n, start := s, len := c.len,
                           tab := shrunk heap
                             (c.tab.map fun t => apply_copy (circular_resize_copy c n) t) n,
                           dangling := shrunk_dangling heap
                             (c.tab.map fun t => apply_copy (circular_resize_copy c n) t)
                             c.dangling n } } := by
  have hcap : 0 < c.max_len := by omega
  by_cases htwo : c.max_len < c.start % c.max_len + c.len
  · refine ⟨n - (c.max_len - c.start % c.max_len), ?_⟩
    rw [resize_shrink_upper heap c n hn hlen htwo]
    simp [circular_resize_copy, apply_copy, Nat.not_lt.mpr hlen, Nat.ne_of_lt hn,
      circular_getpos_zero c hcap, Nat.not_lt.mpr (Nat.le_of_lt hn), htwo]
  · by_cases hcut : n < c.start % c.max_len + c.len
    · refine ⟨0, ?_⟩
      rw [resize_shrink_front heap c n hn hlen (by omega) hcut]
      simp [circular_resize_copy, apply_copy, Nat.not_lt.mpr hlen, Nat.ne_of_lt hn,
        circular_getpos_zero c hcap, Nat.not_lt.mpr (Nat.le_of_lt hn), htwo, hcut]
    · refine ⟨c.start % c.max_len, ?_⟩
      rw [resize_shrink_keep heap c n hn hlen (by omega)]
      simp [circular_resize_copy, apply_copy, Nat.not_lt.mpr hlen, Nat.ne_of_lt hn,
        circular_getpos_zero c hcap, Nat.not_lt.mpr (Nat.le_of_lt hn), htwo, hcut]

/-! ## Capacity 0, construction and destruction -/

/-- C11, the code on a buffer of capacity 0: after `circular_init(c, 0)`, after
a `circular_init` whose allocation fails, and after `circular_destroy`, a
resize to any `n + 1` slots evaluates the modulo of `circular_getpos` with
`max_len == 0`, which is undefined, whatever the allocator does.  (For a buffer
whose block has been released already, `circular_destroy` is undefined
itself.) -/
theorem circular_resize_from_empty_undefined {α : Type} (heap heap' : Option (Nat → α))
    (g : circular α) (m n : Nat) :
    circular_resize heap (circular_init heap' (some g) 0) (n + 1) = none ∧
    circular_resize heap (circular_init none (some g) m) (n + 1) = none ∧
    ((circular_destroy (some g)).bind fun c => circular_resize heap c (n + 1)) = none := by
  refine ⟨?_, ?_, ?_⟩
  · simp [circular_init, circular_resize, circular_getpos]
  · by_cases hm : m = 0 <;> simp [circular_init, malloc, hm, circular_resize, circular_getpos]
  · by_cases hd : g.dangling <;>
      simp [circular_destroy, hd, circular_init, circular_resize, circular_getpos]

/-- C13. For a buffer with `max_len > 0` and `n ≥ len`, with the reallocation
successful when the buffer grows, `circular_resize` commits `max_len = n` and
keeps `len`; when `n` is the current capacity the buffer is unchanged in every
field. -/
theorem circular_resize_commits {α : Type} (heap : Option (Nat → α)) (c : circular α)
    (n : Nat) (hcap : 0 < c.max_len) (hn : c.len ≤ n) (hre : c.max_len < n → heap.isSome) :
    ∃ c', circular_resize heap (some c) n = some { ptr := true, obj := some c' } ∧
      c'.max_len = n ∧ c'.len = c.len ∧ (n = c.max_len → c' = c) := by
  rcases Nat.lt_trichotomy n c.max_len with hlt | heq | hgt
  · obtain ⟨s, hs⟩ := resize_copy_shrink heap c n hlt hn
    exact ⟨_, hs, rfl, rfl, fun h => absurd h (by omega)⟩
  · subst heq
    exact ⟨c, resize_same heap c hn, rfl, rfl, fun _ => rfl⟩
  · obtain ⟨junk, rfl⟩ := Option.isSome_iff_exists.mp (hre hgt)
    obtain ⟨s, hs⟩ := resize_copy_grow junk c n hcap hgt hn
    exact ⟨_, hs, rfl, rfl, fun h => absurd h (by omega)⟩

/-- Witness for C13: a wrapped buffer of capacity 4 grown to 6. -/
theorem circular_resize_commits_witness :
    (0 < 4 ∧ 3 ≤ 6) ∧
    ∃ c', circular_resize (some fun _ => 0)
        (some ({ start := 2, len := 3, max_len := 4, tab := some [7, 0, 5, 6] } : circular Nat)) 6
        = some { ptr := true, obj := some c' } ∧
      c'.max_len = 6 ∧ c'.len = 3 ∧
      (6 = 4 →
        c' = ({ start := 2, len := 3, max_len := 4, tab := some [7, 0, 5, 6] } : circular Nat)) :=
  ⟨⟨by decide, by decide⟩,
    circular_resize_commits (some fun _ => 0)
      ({ start := 2, len := 3, max_len := 4, tab := some [7, 0, 5, 6] } : circular Nat) 6
      (by decide) (by decide) (fun _ => rfl)⟩

/-- C14. For every requested capacity `n`, `circular_init` on a present buffer
gives `len = 0` and `start = 0`, so `circular_getlength` is 0; if the
allocation succeeds the capacity is `n` and the block has
`sizeof(double[n]) / 8` slots, which is `n` for `n ≤ SIZE_MAX / 8`; if `n = 0`
or the allocation fails the capacity is 0 and `tab` is null.
`circular_getlength` of an absent buffer is 0. -/
theorem circular_init_result {α : Type} (heap : Option (Nat → α)) (g : circular α) (n : Nat) :
    (∃ b, circular_init heap (some g) n = some b ∧ b.len = 0 ∧ b.start = 0 ∧
      circular_getlength (circular_init heap (some g) n) = 0 ∧
      (heap.isSome → b.max_len = n ∧ storage_size b = sizeof_doubles n / 8 ∧
        (n ≤ SIZE_MAX / 8 → storage_size b = n)) ∧
      (n = 0 ∨ heap = none → b.max_len = 0 ∧ b.tab = none)) ∧
    circular_getlength (none : Option (circular α)) = 0 := by
  refine ⟨?_, rfl⟩
  by_cases hn : n = 0
  · subst hn
    exact ⟨{ start := 0, len := 0, max_len := 0, tab := none }, by simp [circular_init], rfl, rfl,
      by simp [circular_init, circular_getlength],
      fun _ => ⟨rfl, by simp [storage_size, sizeof_doubles], fun _ => rfl⟩,
      fun _ => ⟨rfl, rfl⟩⟩
  · cases heap with
    | none =>
      exact ⟨{ start := 0, len := 0, max_len := 0, tab := none },
        by simp [circular_init, malloc, hn], rfl, rfl,
        by simp [circular_init, malloc, hn, circular_getlength],
        fun h => absurd h (by simp), fun _ => ⟨rfl, rfl⟩⟩
    | some junk =>
      refine ⟨{ start := 0, len := 0, max_len := n,
                tab := some ((List.range (slots n)).map junk) },
        by simp [circular_init, malloc, hn], rfl, rfl,
        by simp [circular_init, malloc, hn, circular_getlength],
        fun _ => ⟨rfl, by simp [storage_size, slots],
          fun hb => by simp [storage_size, slots_eq hb]⟩, ?_⟩
      rintro (h | h)
      · exact absurd h hn
      · exact absurd h (by simp)

/-- C15, the code on the buffer left by a resize to 0.  After
`circular_init(c, 2)` and `circular_resize(c, 0)` whose `realloc(tab, 0)`
releases the block and returns null, `tab` still points to the released block
(the null result is overruled by `otab`); `circular_destroy` then calls `free`
on it a second time, which is undefined.  On a buffer whose `tab` is null or
a live block `circular_destroy` gives the empty state, also when called
twice. -/
theorem circular_destroy_after_release :
    run (circular_init (some fun _ => 0)
        (some ({ start := 9, len := 9, max_len := 9, tab := none } : circular Nat)) 2)
        [.resize none 0]
      = some (some { start := 0, len := 0, max_len := 0, tab := some [0, 0],
                     dangling := true }) ∧
    circular_destroy
        (some ({ start := 0, len := 0, max_len := 0, tab := some [0, 0], dangling := true } :
          circular Nat)) = none ∧
    run (circular_init (some fun _ => 0)
        (some ({ start := 9, len := 9, max_len := 9, tab := none } : circular Nat)) 2)
        [.resize none 0, .destroy] = none ∧
    (∀ b : circular Nat, b.dangling = false →
      circular_destroy (some b)
        = some (some { start := 0, len := 0, max_len := 0, tab := none }) ∧
      ((circular_destroy (some b)).bind fun c => circular_destroy c)
        = circular_destroy (some b)) := by
  refine ⟨by decide, by decide, by decide, fun b hb => ?_⟩
  constructor <;> simp [circular_destroy, circular_init, hb]

/-- C17. Shrinking a buffer with `len ≤ n < max_len` and `start < max_len`
whose storage has `max_len` slots: a wrapped live region gets
`start = n - (max_len - start)`; a contiguous one that extends past `n` gets
`start = 0`; a contiguous one inside `[0, n)` keeps `start`, and every slot
below `n` keeps its value. -/
theorem circular_resize_shrink_start {α : Type} (heap : Option (Nat → α)) (c : circular α)
    (n : Nat) (hn : n < c.max_len) (hlen : c.len ≤ n) (hst : c.start < c.max_len)
    (hok : storage_ok c) :
    ∃ c', circular_resize heap (some c) n = some { ptr := true, obj := some c' } ∧
      (c.max_len < c.start + c.len → c'.start = n - (c.max_len - c.start)) ∧
      (c.start + c.len ≤ c.max_len → n < c.start + c.len → c'.start = 0) ∧
      (c.start + c.len ≤ n → c'.start = c.start ∧ ∀ j, j < n → slot c' j = slot c j) := by
  have hmod : c.start % c.max_len = c.start := Nat.mod_eq_of_lt hst
  obtain ⟨t, ht, hsz, _⟩ := storage_ok_tab c (by omega) hok
  have hbound := storage_ok_bound c hok
  by_cases htwo : c.max_len < c.start + c.len
  · refine ⟨_, resize_shrink_upper heap c n hn hlen (by rw [hmod]; exact htwo), fun _ => ?_,
      fun h => absurd h (by omega), fun h => absurd h (by omega)⟩
    show n - (c.max_len - c.start % c.max_len) = n - (c.max_len - c.start)
    rw [hmod]
  · by_cases hcut : n < c.start + c.len
    · exact ⟨_, resize_shrink_front heap c n hn hlen (by rw [hmod]; omega)
        (by rw [hmod]; exact hcut), fun h => absurd h htwo, fun _ _ => rfl,
        fun h => absurd h (by omega)⟩
    · refine ⟨_, resize_shrink_keep heap c n hn hlen (by rw [hmod]; omega),
        fun h => absurd h htwo, fun _ h => absurd h hcut, fun _ => ⟨hmod, fun j hj => ?_⟩⟩
      simp only [slot]
      rw [ht, shrunk_get heap t n j (by omega) hj (by omega)]
      rfl

/-- Witness for C17: capacity 6, `start` 1, two live elements, shrunk to 4 with
no data movement. -/
theorem circular_resize_shrink_start_witness :
    (4 < 6 ∧ 2 ≤ 4 ∧ 1 < 6 ∧ 1 + 2 ≤ 4 ∧
      storage_ok ({ start := 1, len := 2, max_len := 6, tab := some [0, 5, 6, 0, 0, 0] } :
        circular Nat)) ∧
    ∃ c', circular_resize none
        (some ({ start := 1, len := 2, max_len := 6, tab := some [0, 5, 6, 0, 0, 0] } :
          circular Nat)) 4
        = some { ptr := true, obj := some c' } ∧ c'.start = 1 ∧
      ∀ j, j < 4 → slot c' j
        = slot ({ start := 1, len := 2, max_len := 6, tab := some [0, 5, 6, 0, 0, 0] } :
          circular Nat) j := by
  refine ⟨by decide, ?_⟩
  obtain ⟨c', h1, _, _, h4⟩ := circular_resize_shrink_start none
    ({ start := 1, len := 2, max_len := 6, tab := some [0, 5, 6, 0, 0, 0] } : circular Nat) 4
    (by decide) (by decide) (by decide) (by decide)
  exact ⟨c', h1, h4 (by decide)⟩

/-! ## Ranges copied by `circular_resize` -/

end Exs30
